import Mathlib

/-!
Verification of the bitset Game of Life simulator.

The repository has two variants of the same simulator: a compile-time-sized
one (`main.cpp`, `std::bitset<Width*Height>`) and a runtime-sized one (the
`DynamicBitset` / `CellularAutomaton` code kept in the Makefile).  Both run
the identical update algorithm; the embedding below follows the runtime-sized
variant, whose bitset carries the bounds checks, and the loops of
`CellularAutomaton::update` / `countLiveNeighbors` are transcribed as folds.
-/

namespace GoL

/-- Embedding of the C++ `DynamicBitset`: a heap array of bits together with
its length.  Every C++ constructor and assignment allocates `data` with
exactly `size` entries, so the `size` field always equals the length of the
array; we therefore represent the object by its bit list and derive `size`. -/
structure DynamicBitset where
  data : List Bool
deriving DecidableEq

/-- The `size` member (a C++ `int`). -/
def DynamicBitset.size (b : DynamicBitset) : Int :=
  (b.data.length : Int)

/-- `DynamicBitset(int size)`: `size` zero-initialized bits. -/
def DynamicBitset.ofSize (n : Nat) : DynamicBitset :=
  ⟨List.replicate n false⟩

/-- `DynamicBitset::test(int index)`: bounds-checked read; out-of-range
indices read as `false`. -/
def DynamicBitset.test (b : DynamicBitset) (index : Int) : Bool :=
  if 0 ≤ index ∧ index < b.size then b.data.getD index.toNat false else false

/-- `DynamicBitset::set(int index, bool value)`: bounds-checked write;
out-of-range indices are ignored. -/
def DynamicBitset.set (b : DynamicBitset) (index : Int) (value : Bool) : DynamicBitset :=
  if 0 ≤ index ∧ index < b.size then ⟨b.data.set index.toNat value⟩ else b

/-- `DynamicBitset::reset()`: set every bit to `0`. -/
def DynamicBitset.reset (b : DynamicBitset) : DynamicBitset :=
  ⟨List.replicate b.data.length false⟩

/-- The state of `class CellularAutomaton` (runtime-sized variant): the
dimensions and the three generation bitsets, each allocated with
`width * height` bits at construction. -/
structure CAState where
  width : Nat
  height : Nat
  grid : DynamicBitset
  nextGrid : DynamicBitset
  prevGrid : DynamicBitset
deriving DecidableEq

/-- The cell rule applied in the body of `update`:
`(alive && (liveNeighbors == 2 || liveNeighbors == 3)) || (!alive && liveNeighbors == 3)`. -/
def gameRule (alive : Bool) (liveNeighbors : Nat) : Bool :=
  (alive && (liveNeighbors == 2 || liveNeighbors == 3)) ||
    (!alive && (liveNeighbors == 3))

/-- `CellularAutomaton::countLiveNeighbors(int x, int y)`: the two `for`
loops over `dy`, `dx` in `-1..1`, skipping `(0,0)`, adding the bit of each
neighbor whose coordinates pass the bounds test. -/
def countLiveNeighbors (g : DynamicBitset) (width height : Nat) (x y : Nat) : Nat :=
  ([-1, 0, 1] : List Int).foldl (fun count dy =>
    ([-1, 0, 1] : List Int).foldl (fun count dx =>
      if dx = 0 ∧ dy = 0 then count
      else
        let nx : Int := (x : Int) + dx
        let ny : Int := (y : Int) + dy
        if 0 ≤ nx ∧ nx < (width : Int) ∧ 0 ≤ ny ∧ ny < (height : Int) then
          count + (g.test (ny * (width : Int) + nx)).toNat
        else count) count) 0

/-- The contribution of a single Moore-neighborhood coordinate pair to the
live-neighbor count: its bit when `(nx, ny)` lies within
`[0,W) x [0,H)`, nothing when it is out of bounds. -/
def mooreContribution (g : DynamicBitset) (width height : Nat) (nx ny : Int) : Nat :=
  if 0 ≤ nx ∧ nx < (width : Int) ∧ 0 ≤ ny ∧ ny < (height : Int) then
    (g.test (ny * (width : Int) + nx)).toNat
  else 0

/-- Specification form of the neighbor count: the sum over the eight
horizontally, vertically and diagonally adjacent coordinate pairs of the
in-bounds cells' bits. -/
def mooreCount (g : DynamicBitset) (width height : Nat) (x y : Nat) : Nat :=
  mooreContribution g width height ((x : Int) - 1) ((y : Int) - 1) +
  mooreContribution g width height (x : Int) ((y : Int) - 1) +
  mooreContribution g width height ((x : Int) + 1) ((y : Int) - 1) +
  mooreContribution g width height ((x : Int) - 1) (y : Int) +
  mooreContribution g width height ((x : Int) + 1) (y : Int) +
  mooreContribution g width height ((x : Int) - 1) ((y : Int) + 1) +
  mooreContribution g width height (x : Int) ((y : Int) + 1) +
  mooreContribution g width height ((x : Int) + 1) ((y : Int) + 1)

/-- The value written into `nextGrid[y*width+x]` by the body of the double
loop in `update`. -/
def nextCell (st : CAState) (x y : Nat) : Bool :=
  gameRule (st.grid.test ((y * st.width + x : Nat) : Int))
    (countLiveNeighbors st.grid st.width st.height x y)

/-- One iteration of the outer `for (y ...)` loop of `update`: the inner
loop over `x` writing row `y` of `nextGrid`. -/
def writeRow (st : CAState) (ng : DynamicBitset) (y : Nat) : DynamicBitset :=
  (List.range st.width).foldl
    (fun ng x => ng.set ((y * st.width + x : Nat) : Int) (nextCell st x y)) ng

/-- The value held by `nextGrid` after `update` has run `nextGrid.reset()`
and the double loop. -/
def computeNext (st : CAState) : DynamicBitset :=
  (List.range st.height).foldl (writeRow st) st.nextGrid.reset

/-- `CellularAutomaton::update()`: compute the next generation; if it equals
`prevGrid` or `grid`, report `false` without shifting; otherwise shift
`prevGrid ← grid`, `grid ← nextGrid` and report `true`.  The returned pair is
(the C++ return value, the state after the call). -/
def update (st : CAState) : Bool × CAState :=
  if computeNext st = st.prevGrid ∨ computeNext st = st.grid then
    (false, { st with nextGrid := computeNext st })
  else
    (true, { st with prevGrid := st.grid, grid := computeNext st,
                     nextGrid := computeNext st })

/-- The simulator's 2-D read of the current grid, as the rendering code
performs it: `grid.test(y * width + x)`. -/
def cellAt (st : CAState) (x y : Int) : Bool :=
  st.grid.test (y * (st.width : Int) + x)

/-- Modelled from the spec: the spec's error taxonomy names the single
construction-time error `InvalidDimension`; the code realizes it as the
dimension check in `main` printing a message and exiting with code 1. -/
inductive CoreError where
  | InvalidDimension
deriving DecidableEq

/-- The dimension validation `main` performs before constructing the
simulator: `if (width <= 0 || height <= 0) { ... return 1; }`, with the
failure labelled by the spec's `InvalidDimension`. -/
def validateDimensions (width height : Int) : Except CoreError Unit :=
  if width ≤ 0 ∨ height ≤ 0 then Except.error CoreError.InvalidDimension
  else Except.ok ()

/-- The process exit code of `main` as a function of the parsed dimensions:
1 when validation fails, 0 on normal completion. -/
def exitCode (width height : Int) : Nat :=
  match validateDimensions width height with
  | Except.error _ => 1
  | Except.ok _ => 0

/-- The grid holding exactly a horizontal three-cell blinker in row `y0`,
columns `x0`, `x0+1`, `x0+2`, every other cell dead. -/
def blinkerH (W H x0 y0 : Nat) : DynamicBitset :=
  ⟨(List.range (W * H)).map (fun i =>
    decide (i = y0 * W + x0 ∨ i = y0 * W + (x0 + 1) ∨ i = y0 * W + (x0 + 2)))⟩

/-- The grid holding exactly a vertical three-cell blinker in column
`x0+1`, rows `y0-1`, `y0`, `y0+1`, every other cell dead. -/
def blinkerV (W H x0 y0 : Nat) : DynamicBitset :=
  ⟨(List.range (W * H)).map (fun i =>
    decide (i = (y0 - 1) * W + (x0 + 1) ∨ i = y0 * W + (x0 + 1) ∨
            i = (y0 + 1) * W + (x0 + 1)))⟩

/-- The states the simulator can be in: a freshly constructed state (any
seeded `grid` of the right size, `nextGrid` and `prevGrid` zero-initialized
with `width * height` bits), or the state after a further `update` call. -/
inductive Reachable : CAState → Prop where
  | init (W H : Nat) (g : DynamicBitset) (hW : 0 < W) (hH : 0 < H)
      (hg : g.data.length = W * H) :
      Reachable ⟨W, H, g, DynamicBitset.ofSize (W * H), DynamicBitset.ofSize (W * H)⟩
  | step (st : CAState) (h : Reachable st) : Reachable (update st).2

/-! ### Basic `DynamicBitset` lemmas -/

theorem DynamicBitset.length_set (b : DynamicBitset) (i : Int) (v : Bool) :
    (b.set i v).data.length = b.data.length := by
  unfold DynamicBitset.set
  split <;> simp

theorem DynamicBitset.length_reset (b : DynamicBitset) :
    b.reset.data.length = b.data.length := by
  simp [DynamicBitset.reset]

theorem DynamicBitset.length_ofSize (n : Nat) :
    (DynamicBitset.ofSize n).data.length = n := by
  simp [DynamicBitset.ofSize]

theorem DynamicBitset.test_toNat (b : DynamicBitset) (j : Nat) (h : j < b.data.length) :
    b.test (j : Int) = b.data.getD j false := by
  have h0 : (0 : Int) ≤ (j : Int) ∧ (j : Int) < b.size := by
    unfold DynamicBitset.size; omega
  simp [DynamicBitset.test, h0]

theorem DynamicBitset.test_out (b : DynamicBitset) (i : Int)
    (h : ¬(0 ≤ i ∧ i < b.size)) : b.test i = false := by
  simp [DynamicBitset.test, h]

theorem DynamicBitset.test_set_self (b : DynamicBitset) (i : Int) (v : Bool)
    (h0 : 0 ≤ i) (h1 : i < b.size) : (b.set i v).test i = v := by
  have hr : 0 ≤ i ∧ i < b.size := ⟨h0, h1⟩
  have hlt : i.toNat < b.data.length := by
    unfold DynamicBitset.size at h1; omega
  unfold DynamicBitset.set
  rw [if_pos hr]
  have hr' : 0 ≤ i ∧ i < (⟨b.data.set i.toNat v⟩ : DynamicBitset).size := by
    simpa [DynamicBitset.size] using hr
  unfold DynamicBitset.test
  rw [if_pos hr']
  simp [List.getD_eq_getElem?_getD, List.getElem?_set_self hlt]

theorem DynamicBitset.test_set_ne (b : DynamicBitset) (i : Int) (v : Bool)
    (j : Int) (h : i ≠ j) : (b.set i v).test j = b.test j := by
  unfold DynamicBitset.set
  split
  case isTrue hi =>
    unfold DynamicBitset.test DynamicBitset.size at *
    by_cases hj : (0 : Int) ≤ j ∧ j < (b.data.length : Int)
    · have hne : i.toNat ≠ j.toNat := by omega
      have hj' : (0 : Int) ≤ j ∧ j < (((b.data.set i.toNat v).length : Nat) : Int) := by
        simpa using hj
      simp only [if_pos hj, if_pos hj']
      simp [List.getD_eq_getElem?_getD, List.getElem?_set_ne hne]
    · have hj' : ¬((0 : Int) ≤ j ∧ j < (((b.data.set i.toNat v).length : Nat) : Int)) := by
        simpa using hj
      simp only [if_neg hj, if_neg hj']
  case isFalse hi => rfl

theorem DynamicBitset.ext_test (a b : DynamicBitset)
    (hlen : a.data.length = b.data.length)
    (h : ∀ j : Nat, j < a.data.length → a.test (j : Int) = b.test (j : Int)) :
    a = b := by
  obtain ⟨da⟩ := a
  obtain ⟨db⟩ := b
  congr 1
  refine List.ext_getElem hlen (fun j h1 h2 => ?_)
  have h3 := h j h1
  rw [DynamicBitset.test_toNat _ j h1, DynamicBitset.test_toNat _ j h2] at h3
  rwa [List.getD_eq_getElem _ false h1, List.getD_eq_getElem _ false h2] at h3

theorem DynamicBitset.test_ofSize (n : Nat) (i : Int) :
    (DynamicBitset.ofSize n).test i = false := by
  unfold DynamicBitset.test
  split
  case isTrue h =>
    have : i.toNat < n := by
      simp [DynamicBitset.size, DynamicBitset.ofSize] at h; omega
    simp [DynamicBitset.ofSize, List.getD_eq_getElem?_getD, List.getElem?_replicate, this]
  case isFalse h => rfl

theorem DynamicBitset.test_reset (b : DynamicBitset) (i : Int) :
    b.reset.test i = false := by
  have : b.reset = DynamicBitset.ofSize b.data.length := rfl
  rw [this, DynamicBitset.test_ofSize]

/-! ### Folds of bounds-checked writes -/

theorem foldl_set_length (l : List Nat) (g : DynamicBitset)
    (idx : Nat → Int) (val : Nat → Bool) :
    (l.foldl (fun g a => g.set (idx a) (val a)) g).data.length = g.data.length := by
  induction l generalizing g with
  | nil => rfl
  | cons a t ih => simp [List.foldl_cons, ih, DynamicBitset.length_set]

theorem foldl_set_test_notMem (l : List Nat) (g : DynamicBitset)
    (idx : Nat → Int) (val : Nat → Bool) (j : Int)
    (h : ∀ a ∈ l, idx a ≠ j) :
    (l.foldl (fun g a => g.set (idx a) (val a)) g).test j = g.test j := by
  induction l generalizing g with
  | nil => rfl
  | cons a t ih =>
    rw [List.foldl_cons, ih _ (fun b hb => h b (List.mem_cons_of_mem a hb)),
      DynamicBitset.test_set_ne _ _ _ _ (h a (List.mem_cons_self a t))]

theorem foldl_set_test_mem (l : List Nat) (g : DynamicBitset)
    (idx : Nat → Int) (val : Nat → Bool) (x : Nat)
    (hnd : l.Nodup)
    (hinj : ∀ a ∈ l, ∀ b ∈ l, idx a = idx b → a = b)
    (hx : x ∈ l) (hr0 : 0 ≤ idx x) (hr1 : idx x < g.size) :
    (l.foldl (fun g a => g.set (idx a) (val a)) g).test (idx x) = val x := by
  induction l generalizing g with
  | nil => cases hx
  | cons a t ih =>
    rw [List.foldl_cons]
    rcases List.mem_cons.mp hx with rfl | hxt
    · have hnotin : x ∉ t := (List.nodup_cons.mp hnd).1
      have hne : ∀ b ∈ t, idx b ≠ idx x := by
        intro b hb hcontra
        exact hnotin (by
          have hbx := hinj b (List.mem_cons_of_mem x hb) x (List.mem_cons_self x t) hcontra
          exact hbx ▸ hb)
      rw [foldl_set_test_notMem t _ idx val (idx x) hne,
        DynamicBitset.test_set_self g (idx x) (val x) hr0 hr1]
    · have hsz : (g.set (idx a) (val a)).size = g.size := by
        unfold DynamicBitset.size
        rw [DynamicBitset.length_set]
      refine ih (g.set (idx a) (val a)) ?_ ?_ hxt (by rw [hsz]; exact hr1)
      · exact (List.nodup_cons.mp hnd).2
      · intro c hc d hd
        exact hinj c (List.mem_cons_of_mem a hc) d (List.mem_cons_of_mem a hd)

/-! ### Linear-index arithmetic -/

theorem index_lt_of_row_lt (W x x' y y' : Nat) (hx : x < W) (hy : y < y') :
    y * W + x < y' * W + x' := by
  have hs : (y + 1) * W = y * W + W := by ring
  have h1 : y * W + x < (y + 1) * W := by omega
  have h2 : (y + 1) * W ≤ y' * W := Nat.mul_le_mul_right W hy
  omega

theorem index_ne_of_row_ne (W x x' y y' : Nat) (hx : x < W) (hx' : x' < W)
    (hy : y ≠ y') : y * W + x ≠ y' * W + x' := by
  rcases Nat.lt_or_ge y y' with h | h
  · exact Nat.ne_of_lt (index_lt_of_row_lt W x x' y y' hx h)
  · have : y' < y := by omega
    exact (Nat.ne_of_lt (index_lt_of_row_lt W x' x y' y hx' this)).symm

theorem index_decode (W x x' y y' : Nat) (hx : x < W) (hx' : x' < W) :
    y * W + x = y' * W + x' ↔ y = y' ∧ x = x' := by
  constructor
  · intro h
    have hyy : y = y' := by
      by_contra hne
      exact index_ne_of_row_ne W x x' y y' hx hx' hne h
    refine ⟨hyy, ?_⟩
    subst hyy
    omega
  · rintro ⟨rfl, rfl⟩
    rfl

theorem index_bound (W H x y : Nat) (hx : x < W) (hy : y < H) :
    y * W + x < W * H := by
  have hs : (y + 1) * W = y * W + W := by ring
  have h1 : y * W + x < (y + 1) * W := by omega
  have h2 : (y + 1) * W ≤ H * W := Nat.mul_le_mul_right W hy
  have h3 : H * W = W * H := Nat.mul_comm H W
  omega

/-! ### The double loop of `update` indexed cell by cell -/

theorem writeRow_length (st : CAState) (ng : DynamicBitset) (y : Nat) :
    (writeRow st ng y).data.length = ng.data.length := by
  unfold writeRow
  exact foldl_set_length (List.range st.width) ng
    (fun x => ((y * st.width + x : Nat) : Int)) (fun x => nextCell st x y)

theorem writeRow_test_notMem (st : CAState) (ng : DynamicBitset) (y : Nat)
    (j : Int) (h : ∀ x, x < st.width → ((y * st.width + x : Nat) : Int) ≠ j) :
    (writeRow st ng y).test j = ng.test j := by
  unfold writeRow
  exact foldl_set_test_notMem (List.range st.width) ng
    (fun x => ((y * st.width + x : Nat) : Int)) (fun x => nextCell st x y) j
    (fun a ha => h a (List.mem_range.mp ha))

theorem writeRow_test_mem (st : CAState) (ng : DynamicBitset) (x y : Nat)
    (hx : x < st.width) (hr : ((y * st.width + x : Nat) : Int) < ng.size) :
    (writeRow st ng y).test ((y * st.width + x : Nat) : Int) = nextCell st x y := by
  unfold writeRow
  refine foldl_set_test_mem (List.range st.width) ng
    (fun x => ((y * st.width + x : Nat) : Int)) (fun x => nextCell st x y) x
    (List.nodup_range st.width)
    (fun a _ b _ hab => ?_)
    (List.mem_range.mpr hx) ?_ hr
  · simp only [Nat.cast_inj] at hab
    omega
  · show (0 : Int) ≤ ((y * st.width + x : Nat) : Int)
    omega

theorem foldl_writeRow_length (st : CAState) (l : List Nat) (g : DynamicBitset) :
    (l.foldl (writeRow st) g).data.length = g.data.length := by
  induction l generalizing g with
  | nil => rfl
  | cons a t ih => rw [List.foldl_cons, ih, writeRow_length]

theorem foldl_writeRow_test_notMem (st : CAState) (l : List Nat)
    (g : DynamicBitset) (j : Int)
    (h : ∀ y ∈ l, ∀ x, x < st.width → ((y * st.width + x : Nat) : Int) ≠ j) :
    (l.foldl (writeRow st) g).test j = g.test j := by
  induction l generalizing g with
  | nil => rfl
  | cons a t ih =>
    rw [List.foldl_cons, ih _ (fun z hz => h z (List.mem_cons_of_mem a hz)),
      writeRow_test_notMem st g a j (h a (List.mem_cons_self a t))]

theorem foldl_writeRow_test_mem (st : CAState) (l : List Nat)
    (g : DynamicBitset) (x y : Nat)
    (hnd : l.Nodup) (hmem : y ∈ l) (hx : x < st.width) (hy : y < st.height)
    (hsz : g.data.length = st.width * st.height) :
    (l.foldl (writeRow st) g).test ((y * st.width + x : Nat) : Int) = nextCell st x y := by
  induction l generalizing g with
  | nil => cases hmem
  | cons a t ih =>
    rw [List.foldl_cons]
    rcases List.mem_cons.mp hmem with rfl | hyt
    · have hnotin : y ∉ t := (List.nodup_cons.mp hnd).1
      rw [foldl_writeRow_test_notMem st t _ _ ?_]
      · refine writeRow_test_mem st g x y hx ?_
        have := index_bound st.width st.height x y hx hy
        unfold DynamicBitset.size
        omega
      · intro z hz x' hx' hcontra
        have hzy : z ≠ y := fun hzy => hnotin (hzy ▸ hz)
        have : z * st.width + x' = y * st.width + x := by omega
        exact index_ne_of_row_ne st.width x' x z y hx' hx hzy this
    · exact ih (writeRow st g a) (List.nodup_cons.mp hnd).2 hyt
        (by rw [writeRow_length]; exact hsz)

/-- Each in-bounds cell of the freshly computed next generation holds the
value assigned by the loop body of `update`. -/
theorem computeNext_test (st : CAState)
    (hnext : st.nextGrid.data.length = st.width * st.height)
    (x y : Nat) (hx : x < st.width) (hy : y < st.height) :
    (computeNext st).test ((y * st.width + x : Nat) : Int) = nextCell st x y := by
  unfold computeNext
  exact foldl_writeRow_test_mem st (List.range st.height) st.nextGrid.reset x y
    (List.nodup_range st.height) (List.mem_range.mpr hy) hx hy
    (by rw [DynamicBitset.length_reset]; exact hnext)

theorem computeNext_length (st : CAState) :
    (computeNext st).data.length = st.nextGrid.data.length := by
  unfold computeNext
  rw [foldl_writeRow_length, DynamicBitset.length_reset]

/-- Rewriting `if P then a + t else a` to extract the conditional summand. -/
theorem ite_add_right (P : Prop) [Decidable P] (a t : Nat) :
    (if P then a + t else a) = a + (if P then t else 0) := by
  split <;> simp

/-- The loop of `countLiveNeighbors` computes exactly the bounded
Moore-neighborhood sum. -/
theorem countLiveNeighbors_eq_mooreCount (g : DynamicBitset) (W H x y : Nat) :
    countLiveNeighbors g W H x y = mooreCount g W H x y := by
  unfold countLiveNeighbors mooreCount mooreContribution
  simp only [List.foldl_cons, List.foldl_nil]
  norm_num [ite_add_right, sub_eq_add_neg]

/-- A 3x3 simulator state freshly seeded with the horizontal blinker. -/
def caBlinkH : CAState :=
  ⟨3, 3, blinkerH 3 3 0 1, DynamicBitset.ofSize 9, DynamicBitset.ofSize 9⟩

/-- The state one `update` after `caBlinkH`. -/
def caA : CAState := (update caBlinkH).2

/-- A 3x3 simulator state freshly seeded with the vertical blinker. -/
def caB : CAState :=
  ⟨3, 3, blinkerV 3 3 0 1, DynamicBitset.ofSize 9, DynamicBitset.ofSize 9⟩

/-- A 2x2 simulator state with every cell dead. -/
def caDead : CAState :=
  ⟨2, 2, DynamicBitset.ofSize 4, DynamicBitset.ofSize 4, DynamicBitset.ofSize 4⟩

/-- A 2x2 simulator whose stored grid has the bit of linear index 2 set,
i.e. cell `(0,1)` alive. -/
def caAlias : CAState :=
  ⟨2, 2, ⟨[false, false, true, false]⟩, DynamicBitset.ofSize 4, DynamicBitset.ofSize 4⟩

/-! ### Claim C1: the generation rule and the bounded Moore count -/

/-- C1.  For every grid state and every cell at in-bounds coordinates
`(x, y)`, the freshly computed next generation holds at linear index
`y*W + x` the value `alive if (current alive and live-neighbor count in
{2,3}) or (current dead and live-neighbor count = 3)`, where the
live-neighbor count is the sum over the up-to-8 Moore-neighborhood cells
whose coordinates lie within `[0,W) x [0,H)`, out-of-bounds neighbors
contributing nothing. -/
theorem update_computes_rule (st : CAState)
    (hnext : st.nextGrid.data.length = st.width * st.height)
    (x y : Nat) (hx : x < st.width) (hy : y < st.height) :
    (computeNext st).test ((y * st.width + x : Nat) : Int) =
      gameRule (st.grid.test ((y * st.width + x : Nat) : Int))
        (mooreCount st.grid st.width st.height x y) := by
  rw [computeNext_test st hnext x y hx hy]
  unfold nextCell
  rw [countLiveNeighbors_eq_mooreCount]

/-- Witness for C1 on the 3x3 blinker state at cell `(1, 0)`. -/
theorem update_computes_rule_witness :
    caBlinkH.nextGrid.data.length = caBlinkH.width * caBlinkH.height ∧
    1 < caBlinkH.width ∧ 0 < caBlinkH.height ∧
    (computeNext caBlinkH).test ((0 * caBlinkH.width + 1 : Nat) : Int) =
      gameRule (caBlinkH.grid.test ((0 * caBlinkH.width + 1 : Nat) : Int))
        (mooreCount caBlinkH.grid caBlinkH.width caBlinkH.height 1 0) :=
  ⟨by decide, by decide, by decide,
    update_computes_rule caBlinkH (by decide) 1 0 (by decide) (by decide)⟩

/-! ### Claim C2: termination detection leaves the state unchanged -/

/-- C2.  If the freshly computed next generation equals the previous
generation or equals the current generation, `update` returns `false` and
leaves both `grid` and `prevGrid` exactly unchanged. -/
theorem update_stable_frame (st : CAState)
    (h : computeNext st = st.prevGrid ∨ computeNext st = st.grid) :
    (update st).1 = false ∧ (update st).2.grid = st.grid ∧
      (update st).2.prevGrid = st.prevGrid := by
  unfold update
  rw [if_pos h]
  exact ⟨rfl, rfl, rfl⟩

/-- Witness for C2 on the all-dead 2x2 state. -/
theorem update_stable_frame_witness :
    (computeNext caDead = caDead.prevGrid ∨ computeNext caDead = caDead.grid) ∧
    (update caDead).1 = false ∧ (update caDead).2.grid = caDead.grid ∧
      (update caDead).2.prevGrid = caDead.prevGrid :=
  ⟨by decide, update_stable_frame caDead (by decide)⟩

/-! ### Claim C3: a state-changing update shifts the generations -/

/-- C3.  If the freshly computed next generation differs from both the
previous and the current generation, `update` sets `prevGrid` to the old
`grid`, sets `grid` to the computed next generation, and returns `true`. -/
theorem update_shifts_state (st : CAState)
    (h1 : computeNext st ≠ st.prevGrid) (h2 : computeNext st ≠ st.grid) :
    (update st).1 = true ∧ (update st).2.prevGrid = st.grid ∧
      (update st).2.grid = computeNext st := by
  unfold update
  rw [if_neg (by tauto)]
  exact ⟨rfl, rfl, rfl⟩

/-- Witness for C3 on the 3x3 blinker state. -/
theorem update_shifts_state_witness :
    computeNext caBlinkH ≠ caBlinkH.prevGrid ∧ computeNext caBlinkH ≠ caBlinkH.grid ∧
    (update caBlinkH).1 = true ∧ (update caBlinkH).2.prevGrid = caBlinkH.grid ∧
      (update caBlinkH).2.grid = computeNext caBlinkH :=
  ⟨by decide, by decide, update_shifts_state caBlinkH (by decide) (by decide)⟩

/-! ### Claim C4: the all-dead grid is a fixed point -/

theorem countLiveNeighbors_ofSize (n W H x y : Nat) :
    countLiveNeighbors (DynamicBitset.ofSize n) W H x y = 0 := by
  rw [countLiveNeighbors_eq_mooreCount]
  unfold mooreCount mooreContribution
  simp [DynamicBitset.test_ofSize]

/-- C4.  When the current grid is all-dead (whatever `prevGrid` holds), the
computed next generation equals the current grid, so `update` reports
`false` on that very call. -/
theorem all_dead_fixed_point (st : CAState)
    (hW : 0 < st.width) (hH : 0 < st.height)
    (hdead : st.grid.data = List.replicate (st.width * st.height) false)
    (hnext : st.nextGrid.data.length = st.width * st.height) :
    computeNext st = st.grid ∧ (update st).1 = false := by
  have hg : st.grid = DynamicBitset.ofSize (st.width * st.height) :=
    congrArg DynamicBitset.mk hdead
  have heq : computeNext st = st.grid := by
    refine DynamicBitset.ext_test _ _ ?_ ?_
    · rw [computeNext_length, hnext, hdead]
      simp
    · intro j hj
      rw [computeNext_length, hnext] at hj
      have hx : j % st.width < st.width := Nat.mod_lt _ hW
      have hy : j / st.width < st.height := Nat.div_lt_of_lt_mul hj
      have hmc : (j / st.width) * st.width = st.width * (j / st.width) :=
        Nat.mul_comm _ _
      have hdm := Nat.div_add_mod j st.width
      have hdec : (j / st.width) * st.width + j % st.width = j := by omega
      rw [show (j : Int) = (((j / st.width) * st.width + j % st.width : Nat) : Int) by
        rw [hdec]]
      rw [computeNext_test st hnext (j % st.width) (j / st.width) hx hy]
      unfold nextCell gameRule
      rw [hg, countLiveNeighbors_ofSize, DynamicBitset.test_ofSize]
      rfl
  refine ⟨heq, ?_⟩
  unfold update
  rw [if_pos (Or.inr heq)]

/-- Witness for C4 on the all-dead 2x2 state. -/
theorem all_dead_fixed_point_witness :
    0 < caDead.width ∧ 0 < caDead.height ∧
    caDead.grid.data = List.replicate (caDead.width * caDead.height) false ∧
    caDead.nextGrid.data.length = caDead.width * caDead.height ∧
    (computeNext caDead = caDead.grid ∧ (update caDead).1 = false) :=
  ⟨by decide, by decide, by decide, by decide,
    all_dead_fixed_point caDead (by decide) (by decide) (by decide) (by decide)⟩

/-! ### Claim C7: dimension validation -/

/-- C7.  Construction with a non-positive width or height fails with
`InvalidDimension`, the only core error, and the CLI exits with code 1. -/
theorem invalid_dimension_rejected (width height : Int)
    (h : width ≤ 0 ∨ height ≤ 0) :
    validateDimensions width height = Except.error CoreError.InvalidDimension ∧
      exitCode width height = 1 := by
  have h1 : validateDimensions width height =
      Except.error CoreError.InvalidDimension := by
    unfold validateDimensions
    rw [if_pos h]
  refine ⟨h1, ?_⟩
  unfold exitCode
  rw [h1]

/-- Witness for C7 at width 0, height 5. -/
theorem invalid_dimension_rejected_witness :
    ((0 : Int) ≤ 0 ∨ (5 : Int) ≤ 0) ∧
    (validateDimensions 0 5 = Except.error CoreError.InvalidDimension ∧
      exitCode 0 5 = 1) :=
  ⟨by decide, invalid_dimension_rejected 0 5 (by decide)⟩

/-! ### Claim C9: out-of-range writes are silent no-ops -/

/-- C9.  Writing a bit at an out-of-range index (negative, or at least
`size`) leaves the bitset exactly unchanged. -/
theorem set_out_of_range_noop (b : DynamicBitset) (index : Int) (value : Bool)
    (h : index < 0 ∨ b.size ≤ index) :
    b.set index value = b := by
  unfold DynamicBitset.set
  rw [if_neg (by omega)]

/-- Witness for C9: writing index 5 of a 2-bit bitset changes nothing. -/
theorem set_out_of_range_noop_witness :
    ((5 : Int) < 0 ∨ (⟨[true, false]⟩ : DynamicBitset).size ≤ 5) ∧
    (⟨[true, false]⟩ : DynamicBitset).set 5 true = ⟨[true, false]⟩ :=
  ⟨by decide, set_out_of_range_noop ⟨[true, false]⟩ 5 true (by decide)⟩

/-! ### Claim C10: a `true` result means the state really changed -/

/-- C10.  Whenever `update` returns `true`, the resulting state satisfies
`grid ≠ prevGrid`: the simulator never reports itself still running while
the current generation equals the one immediately before it. -/
theorem alive_implies_changed (st : CAState) (h : (update st).1 = true) :
    (update st).2.grid ≠ (update st).2.prevGrid := by
  unfold update at h ⊢
  by_cases hc : computeNext st = st.prevGrid ∨ computeNext st = st.grid
  · rw [if_pos hc] at h
    cases h
  · rw [if_neg hc]
    intro heq
    exact hc (Or.inr heq)

/-- Witness for C10 on the 3x3 blinker state. -/
theorem alive_implies_changed_witness :
    (update caBlinkH).1 = true ∧
    (update caBlinkH).2.grid ≠ (update caBlinkH).2.prevGrid :=
  ⟨by decide, alive_implies_changed caBlinkH (by decide)⟩

/-! ### Claim C6: the 2-D read is safe only through the linear index -/

/-- Counterexample to C6 as stated: in a 2x2 grid whose cell `(0,1)` is
alive, the out-of-range coordinate pair `(2, 0)` reads `true`, because its
linear index `0*2+2 = 2` aliases cell `(0,1)`. -/
theorem cellAt_out_of_range_aliases :
    (caAlias.width : Int) ≤ 2 ∧ (0 : Int) ≤ 0 ∧
      cellAt caAlias 2 0 = true := by
  decide

/-- C6 (amended).  The bounds check of the read is on the linear index:
`cellAt` returns `false` whenever `y*width + x` falls outside
`[0, size)`, and returns the stored bit at linear index `y*width + x`
otherwise — even when `(x, y)` itself is outside `[0,W) x [0,H)`. -/
theorem cellAt_linear_bounds (st : CAState) (x y : Int) :
    (¬(0 ≤ y * (st.width : Int) + x ∧ y * (st.width : Int) + x < st.grid.size) →
      cellAt st x y = false) ∧
    ((0 ≤ y * (st.width : Int) + x ∧ y * (st.width : Int) + x < st.grid.size) →
      cellAt st x y = st.grid.data.getD (y * (st.width : Int) + x).toNat false) := by
  unfold cellAt DynamicBitset.test
  constructor
  · intro h
    rw [if_neg h]
  · intro h
    rw [if_pos h]

/-- Witness for C6 (amended): the in-range branch at `(2, 0)` of the
aliasing state, and the out-of-range branch at `(-1, 0)`. -/
theorem cellAt_linear_bounds_witness :
    (0 ≤ (0 : Int) * (caAlias.width : Int) + 2 ∧
      (0 : Int) * (caAlias.width : Int) + 2 < caAlias.grid.size) ∧
    cellAt caAlias 2 0 =
      caAlias.grid.data.getD ((0 : Int) * (caAlias.width : Int) + 2).toNat false ∧
    cellAt caAlias (-1) 0 = false :=
  ⟨by decide, (cellAt_linear_bounds caAlias 2 0).2 (by decide),
    (cellAt_linear_bounds caAlias (-1) 0).1 (by decide)⟩

/-! ### Claim C8: determinism of `update` -/

/-- Along any reachable state, `nextGrid` keeps its construction size of
`width * height` bits. -/
theorem reachable_sizes (st : CAState) (h : Reachable st) :
    st.nextGrid.data.length = st.width * st.height := by
  induction h with
  | init W H g hW hH hg => exact DynamicBitset.length_ofSize (W * H)
  | step st' h ih =>
    unfold update
    split
    · show (computeNext st').data.length = st'.width * st'.height
      rw [computeNext_length]; exact ih
    · show (computeNext st').data.length = st'.width * st'.height
      rw [computeNext_length]; exact ih

/-- The computed next generation depends only on the dimensions, the
current grid, and the size of the scratch grid. -/
theorem computeNext_congr (st1 st2 : CAState) (hw : st1.width = st2.width)
    (hh : st1.height = st2.height) (hg : st1.grid = st2.grid)
    (hn : st1.nextGrid.data.length = st2.nextGrid.data.length) :
    computeNext st1 = computeNext st2 := by
  obtain ⟨W1, H1, g1, n1, p1⟩ := st1
  obtain ⟨W2, H2, g2, n2, p2⟩ := st2
  dsimp only at hw hh hg hn
  subst hw hh hg
  have hreset : (⟨W1, H1, g1, n1, p1⟩ : CAState).nextGrid.reset =
      (⟨W1, H1, g1, n2, p2⟩ : CAState).nextGrid.reset := by
    unfold DynamicBitset.reset
    dsimp only
    rw [hn]
  rw [computeNext, computeNext, hreset]
  rfl

/-- Counterexample to C8 as stated: two reachable 3x3 states with the same
current grid (the vertical blinker) on which `update` returns different
results — one has the horizontal blinker as its previous generation (so the
period-2 check fires), the other is freshly seeded (so it advances). -/
theorem update_not_deterministic_given_grid :
    Reachable caA ∧ Reachable caB ∧ caA.grid = caB.grid ∧
      (update caA).1 ≠ (update caB).1 := by
  refine ⟨?_, ?_, by decide, by decide⟩
  · exact Reachable.step caBlinkH
      (Reachable.init 3 3 (blinkerH 3 3 0 1) (by decide) (by decide) (by decide))
  · exact Reachable.init 3 3 (blinkerV 3 3 0 1) (by decide) (by decide) (by decide)

/-- C8 (amended).  For reachable states, `update` is deterministic given the
dimensions, the current generation AND the previous generation: no other
hidden input (in particular no randomness after construction) influences the
returned flag or the resulting current grid. -/
theorem update_deterministic (st1 st2 : CAState)
    (h1 : Reachable st1) (h2 : Reachable st2)
    (hw : st1.width = st2.width) (hh : st1.height = st2.height)
    (hg : st1.grid = st2.grid) (hp : st1.prevGrid = st2.prevGrid) :
    (update st1).1 = (update st2).1 ∧ (update st1).2.grid = (update st2).2.grid := by
  have hn : st1.nextGrid.data.length = st2.nextGrid.data.length := by
    rw [reachable_sizes st1 h1, reachable_sizes st2 h2, hw, hh]
  have hcn := computeNext_congr st1 st2 hw hh hg hn
  unfold update
  rw [hcn, hg, hp]
  split
  · exact ⟨rfl, rfl⟩
  · exact ⟨rfl, rfl⟩

/-- Witness for C8 (amended) at two identical freshly seeded states. -/
theorem update_deterministic_witness :
    (update caB).1 = (update caB).1 ∧ (update caB).2.grid = (update caB).2.grid :=
  update_deterministic caB caB
    (Reachable.init 3 3 (blinkerV 3 3 0 1) (by decide) (by decide) (by decide))
    (Reachable.init 3 3 (blinkerV 3 3 0 1) (by decide) (by decide) (by decide))
    rfl rfl rfl rfl


/-! ### Claim C5: the blinker oscillates with period 2 -/

theorem test_mk_map_range (n : Nat) (p : Nat → Prop) [DecidablePred p] (i : Int) :
    (⟨(List.range n).map (fun j => decide (p j))⟩ : DynamicBitset).test i =
      decide (0 ≤ i ∧ i < (n : Int) ∧ p i.toNat) := by
  unfold DynamicBitset.test DynamicBitset.size
  by_cases h : (0 : Int) ≤ i ∧ i < (((List.range n).map (fun j => decide (p j))).length : Int)
  · rw [if_pos h]
    have hlt : i.toNat < n := by
      simp only [List.length_map, List.length_range] at h
      omega
    have h2 : (0 ≤ i ∧ i < (n : Int) ∧ p i.toNat) ↔ p i.toNat := by
      simp only [List.length_map, List.length_range] at h
      constructor
      · exact fun hh => hh.2.2
      · exact fun hh => ⟨h.1, h.2, hh⟩
    rw [List.getD_eq_getElem _ false (by simpa using hlt)]
    simp only [List.getElem_map, List.getElem_range]
    rw [decide_eq_decide]
    exact h2.symm
  · rw [if_neg h]
    have : ¬(0 ≤ i ∧ i < (n : Int) ∧ p i.toNat) := by
      simp only [List.length_map, List.length_range] at h
      intro hh
      exact h ⟨hh.1, hh.2.1⟩
    simp [this]

theorem test_blinkerH_int (W H x0 y0 : Nat) (hx0 : x0 + 2 < W) (hy0 : y0 < H) (i : Int) :
    (blinkerH W H x0 y0).test i =
      decide (i = ((y0 * W + x0 : Nat) : Int) ∨ i = ((y0 * W + (x0 + 1) : Nat) : Int) ∨
        i = ((y0 * W + (x0 + 2) : Nat) : Int)) := by
  rw [blinkerH, test_mk_map_range, decide_eq_decide]
  have hb : y0 * W + (x0 + 2) < W * H := index_bound W H (x0 + 2) y0 (by omega) hy0
  omega

theorem test_blinkerV_int (W H x0 y0 : Nat) (hx0 : x0 + 2 < W) (hy0 : 1 ≤ y0)
    (hy1 : y0 + 1 < H) (i : Int) :
    (blinkerV W H x0 y0).test i =
      decide (i = (((y0 - 1) * W + (x0 + 1) : Nat) : Int) ∨ i = ((y0 * W + (x0 + 1) : Nat) : Int) ∨
        i = (((y0 + 1) * W + (x0 + 1) : Nat) : Int)) := by
  rw [blinkerV, test_mk_map_range, decide_eq_decide]
  have hb1 : (y0 - 1) * W + (x0 + 1) < W * H :=
    index_bound W H (x0 + 1) (y0 - 1) (by omega) (by omega)
  have hb2 : y0 * W + (x0 + 1) < W * H :=
    index_bound W H (x0 + 1) y0 (by omega) (by omega)
  have hb3 : (y0 + 1) * W + (x0 + 1) < W * H :=
    index_bound W H (x0 + 1) (y0 + 1) (by omega) (by omega)
  omega

theorem int_index_decode (W : Nat) (nx ny : Int) (x' y' : Nat)
    (h0 : 0 ≤ nx) (h1 : nx < (W : Int)) (hx' : x' < W) :
    ny * (W : Int) + nx = ((y' * W + x' : Nat) : Int) ↔
      ny = (y' : Int) ∧ nx = (x' : Int) := by
  constructor
  · intro h
    rcases Int.lt_or_le ny 0 with hn | hn
    · exfalso
      have hmul : ny * (W : Int) ≤ (-1) * (W : Int) :=
        Int.mul_le_mul_of_nonneg_right (by omega) (by omega)
      omega
    · have hnyb : ((ny.toNat : Nat) : Int) = ny := Int.toNat_of_nonneg hn
      have hnxa : ((nx.toNat : Nat) : Int) = nx := Int.toNat_of_nonneg h0
      rw [← hnyb, ← hnxa] at h
      have hcast : ny.toNat * W + nx.toNat = y' * W + x' := by exact_mod_cast h
      have hd := (index_decode W nx.toNat x' ny.toNat y' (by omega) hx').mp hcast
      omega
  · intro hc
    rw [hc.1, hc.2]
    push_cast
    ring


theorem test_blinkerH_coords (W H x0 y0 : Nat) (hx0 : x0 + 2 < W) (hy0 : y0 < H)
    (x y : Nat) (hx : x < W) (hy : y < H) :
    (blinkerH W H x0 y0).test ((y * W + x : Nat) : Int) =
      decide (y = y0 ∧ (x = x0 ∨ x = x0 + 1 ∨ x = x0 + 2)) := by
  rw [test_blinkerH_int W H x0 y0 hx0 hy0, decide_eq_decide]
  constructor
  · rintro (h | h | h)
    · have := (index_decode W x x0 y y0 hx (by omega)).mp (by exact_mod_cast h)
      omega
    · have := (index_decode W x (x0 + 1) y y0 hx (by omega)).mp (by exact_mod_cast h)
      omega
    · have := (index_decode W x (x0 + 2) y y0 hx (by omega)).mp (by exact_mod_cast h)
      omega
  · rintro ⟨rfl, (rfl | rfl | rfl)⟩
    · exact Or.inl rfl
    · exact Or.inr (Or.inl rfl)
    · exact Or.inr (Or.inr rfl)

theorem test_blinkerV_coords (W H x0 y0 : Nat) (hx0 : x0 + 2 < W) (hy0 : 1 ≤ y0)
    (hy1 : y0 + 1 < H) (x y : Nat) (hx : x < W) (hy : y < H) :
    (blinkerV W H x0 y0).test ((y * W + x : Nat) : Int) =
      decide (x = x0 + 1 ∧ (y = y0 - 1 ∨ y = y0 ∨ y = y0 + 1)) := by
  rw [test_blinkerV_int W H x0 y0 hx0 hy0 hy1, decide_eq_decide]
  constructor
  · rintro (h | h | h)
    · have := (index_decode W x (x0 + 1) y (y0 - 1) hx (by omega)).mp (by exact_mod_cast h)
      omega
    · have := (index_decode W x (x0 + 1) y y0 hx (by omega)).mp (by exact_mod_cast h)
      omega
    · have := (index_decode W x (x0 + 1) y (y0 + 1) hx (by omega)).mp (by exact_mod_cast h)
      omega
  · rintro ⟨rfl, hyd⟩
    rcases hyd with h | h | h
    · exact Or.inl (by rw [h])
    · exact Or.inr (Or.inl (by rw [h]))
    · exact Or.inr (Or.inr (by rw [h]))

theorem mooreContribution_blinkerH (W H x0 y0 : Nat) (hx0 : x0 + 2 < W)
    (hy0 : y0 < H) (nx ny : Int) :
    mooreContribution (blinkerH W H x0 y0) W H nx ny =
      if ny = (y0 : Int) ∧ (nx = (x0 : Int) ∨ nx = (x0 : Int) + 1 ∨ nx = (x0 : Int) + 2)
      then 1 else 0 := by
  unfold mooreContribution
  by_cases hb : 0 ≤ nx ∧ nx < (W : Int) ∧ 0 ≤ ny ∧ ny < (H : Int)
  · rw [if_pos hb, test_blinkerH_int W H x0 y0 hx0 hy0]
    by_cases hc : ny = (y0 : Int) ∧ (nx = (x0 : Int) ∨ nx = (x0 : Int) + 1 ∨ nx = (x0 : Int) + 2)
    · rw [if_pos hc]
      have hd : ny * (W : Int) + nx = ((y0 * W + x0 : Nat) : Int) ∨
          ny * (W : Int) + nx = ((y0 * W + (x0 + 1) : Nat) : Int) ∨
          ny * (W : Int) + nx = ((y0 * W + (x0 + 2) : Nat) : Int) := by
        rcases hc.2 with h | h | h
        · exact Or.inl ((int_index_decode W nx ny x0 y0 hb.1 hb.2.1 (by omega)).mpr
            ⟨hc.1, by omega⟩)
        · exact Or.inr (Or.inl ((int_index_decode W nx ny (x0 + 1) y0 hb.1 hb.2.1
            (by omega)).mpr ⟨hc.1, by push_cast; omega⟩))
        · exact Or.inr (Or.inr ((int_index_decode W nx ny (x0 + 2) y0 hb.1 hb.2.1
            (by omega)).mpr ⟨hc.1, by push_cast; omega⟩))
      rw [decide_eq_true hd]
      rfl
    · rw [if_neg hc]
      have hd : ¬(ny * (W : Int) + nx = ((y0 * W + x0 : Nat) : Int) ∨
          ny * (W : Int) + nx = ((y0 * W + (x0 + 1) : Nat) : Int) ∨
          ny * (W : Int) + nx = ((y0 * W + (x0 + 2) : Nat) : Int)) := by
        rintro (h | h | h)
        · have := (int_index_decode W nx ny x0 y0 hb.1 hb.2.1 (by omega)).mp h
          exact hc ⟨this.1, Or.inl this.2⟩
        · have := (int_index_decode W nx ny (x0 + 1) y0 hb.1 hb.2.1 (by omega)).mp h
          exact hc ⟨this.1, Or.inr (Or.inl (by push_cast at this; omega))⟩
        · have := (int_index_decode W nx ny (x0 + 2) y0 hb.1 hb.2.1 (by omega)).mp h
          exact hc ⟨this.1, Or.inr (Or.inr (by push_cast at this; omega))⟩
      rw [decide_eq_false hd]
      rfl
  · rw [if_neg hb]
    have hnc : ¬(ny = (y0 : Int) ∧ (nx = (x0 : Int) ∨ nx = (x0 : Int) + 1 ∨
        nx = (x0 : Int) + 2)) := by
      intro hc
      exact hb (by refine ⟨?_, ?_, ?_, ?_⟩ <;> omega)
    rw [if_neg hnc]

theorem mooreContribution_blinkerV (W H x0 y0 : Nat) (hx0 : x0 + 2 < W)
    (hy0 : 1 ≤ y0) (hy1 : y0 + 1 < H) (nx ny : Int) :
    mooreContribution (blinkerV W H x0 y0) W H nx ny =
      if nx = (x0 : Int) + 1 ∧ (ny = ((y0 - 1 : Nat) : Int) ∨ ny = (y0 : Int) ∨
        ny = (y0 : Int) + 1) then 1 else 0 := by
  unfold mooreContribution
  by_cases hb : 0 ≤ nx ∧ nx < (W : Int) ∧ 0 ≤ ny ∧ ny < (H : Int)
  · rw [if_pos hb, test_blinkerV_int W H x0 y0 hx0 hy0 hy1]
    by_cases hc : nx = (x0 : Int) + 1 ∧ (ny = ((y0 - 1 : Nat) : Int) ∨ ny = (y0 : Int) ∨
        ny = (y0 : Int) + 1)
    · rw [if_pos hc]
      have hd : ny * (W : Int) + nx = (((y0 - 1) * W + (x0 + 1) : Nat) : Int) ∨
          ny * (W : Int) + nx = ((y0 * W + (x0 + 1) : Nat) : Int) ∨
          ny * (W : Int) + nx = (((y0 + 1) * W + (x0 + 1) : Nat) : Int) := by
        rcases hc.2 with h | h | h
        · exact Or.inl ((int_index_decode W nx ny (x0 + 1) (y0 - 1) hb.1 hb.2.1
            (by omega)).mpr ⟨h, by push_cast; omega⟩)
        · exact Or.inr (Or.inl ((int_index_decode W nx ny (x0 + 1) y0 hb.1 hb.2.1
            (by omega)).mpr ⟨h, by push_cast; omega⟩))
        · exact Or.inr (Or.inr ((int_index_decode W nx ny (x0 + 1) (y0 + 1) hb.1 hb.2.1
            (by omega)).mpr ⟨by push_cast; omega, by push_cast; omega⟩))
      rw [decide_eq_true hd]
      rfl
    · rw [if_neg hc]
      have hd : ¬(ny * (W : Int) + nx = (((y0 - 1) * W + (x0 + 1) : Nat) : Int) ∨
          ny * (W : Int) + nx = ((y0 * W + (x0 + 1) : Nat) : Int) ∨
          ny * (W : Int) + nx = (((y0 + 1) * W + (x0 + 1) : Nat) : Int)) := by
        rintro (h | h | h)
        · have := (int_index_decode W nx ny (x0 + 1) (y0 - 1) hb.1 hb.2.1 (by omega)).mp h
          exact hc ⟨by push_cast at this; omega, Or.inl this.1⟩
        · have := (int_index_decode W nx ny (x0 + 1) y0 hb.1 hb.2.1 (by omega)).mp h
          exact hc ⟨by push_cast at this; omega, Or.inr (Or.inl this.1)⟩
        · have := (int_index_decode W nx ny (x0 + 1) (y0 + 1) hb.1 hb.2.1 (by omega)).mp h
          exact hc ⟨by push_cast at this; omega, Or.inr (Or.inr (by push_cast at this; omega))⟩
      rw [decide_eq_false hd]
      rfl
  · rw [if_neg hb]
    have hnc : ¬(nx = (x0 : Int) + 1 ∧ (ny = ((y0 - 1 : Nat) : Int) ∨ ny = (y0 : Int) ∨
        ny = (y0 : Int) + 1)) := by
      intro hc
      exact hb (by refine ⟨?_, ?_, ?_, ?_⟩ <;> omega)
    rw [if_neg hnc]


set_option maxHeartbeats 2000000 in
theorem nextCell_blinkerH (st : CAState) (W H x0 y0 : Nat)
    (hw : st.width = W) (hh : st.height = H) (hg : st.grid = blinkerH W H x0 y0)
    (hx0 : x0 + 2 < W) (hy0 : 1 ≤ y0) (hy1 : y0 + 1 < H)
    (x y : Nat) (hx : x < W) (hy : y < H) :
    nextCell st x y = decide (x = x0 + 1 ∧ (y = y0 - 1 ∨ y = y0 ∨ y = y0 + 1)) := by
  subst hw hh
  unfold nextCell
  rw [hg, countLiveNeighbors_eq_mooreCount]
  unfold mooreCount
  rw [test_blinkerH_coords _ _ x0 y0 hx0 (by omega) x y hx hy]
  simp only [mooreContribution_blinkerH _ _ x0 y0 hx0 (by omega : y0 < st.height)]
  rw [Bool.eq_iff_iff]
  simp only [gameRule, Bool.or_eq_true, Bool.and_eq_true, Bool.not_eq_true',
    decide_eq_true_eq, decide_eq_false_iff_not, beq_iff_eq]
  split_ifs <;> omega


set_option maxHeartbeats 2000000 in
theorem nextCell_blinkerV (st : CAState) (W H x0 y0 : Nat)
    (hw : st.width = W) (hh : st.height = H) (hg : st.grid = blinkerV W H x0 y0)
    (hx0 : x0 + 2 < W) (hy0 : 1 ≤ y0) (hy1 : y0 + 1 < H)
    (x y : Nat) (hx : x < W) (hy : y < H) :
    nextCell st x y = decide (y = y0 ∧ (x = x0 ∨ x = x0 + 1 ∨ x = x0 + 2)) := by
  subst hw hh
  unfold nextCell
  rw [hg, countLiveNeighbors_eq_mooreCount]
  unfold mooreCount
  rw [test_blinkerV_coords _ _ x0 y0 hx0 hy0 hy1 x y hx hy]
  simp only [mooreContribution_blinkerV _ _ x0 y0 hx0 hy0 hy1]
  rw [Bool.eq_iff_iff]
  simp only [gameRule, Bool.or_eq_true, Bool.and_eq_true, Bool.not_eq_true',
    decide_eq_true_eq, decide_eq_false_iff_not, beq_iff_eq]
  split_ifs <;> omega


theorem computeNext_blinkerH (st : CAState) (W H x0 y0 : Nat)
    (hw : st.width = W) (hh : st.height = H) (hg : st.grid = blinkerH W H x0 y0)
    (hnext : st.nextGrid.data.length = W * H)
    (hx0 : x0 + 2 < W) (hy0 : 1 ≤ y0) (hy1 : y0 + 1 < H) :
    computeNext st = blinkerV W H x0 y0 := by
  subst hw hh
  have hW : 0 < st.width := by omega
  refine DynamicBitset.ext_test _ _ ?_ ?_
  · rw [computeNext_length, hnext]
    simp [blinkerV]
  · intro j hj
    rw [computeNext_length, hnext] at hj
    have hx : j % st.width < st.width := Nat.mod_lt _ hW
    have hy : j / st.width < st.height := Nat.div_lt_of_lt_mul hj
    have hmc : (j / st.width) * st.width = st.width * (j / st.width) := Nat.mul_comm _ _
    have hdm := Nat.div_add_mod j st.width
    have hdec : (j / st.width) * st.width + j % st.width = j := by omega
    rw [show (j : Int) = (((j / st.width) * st.width + j % st.width : Nat) : Int) by
      rw [hdec]]
    rw [computeNext_test st hnext _ _ hx hy]
    rw [nextCell_blinkerH st st.width st.height x0 y0 rfl rfl hg hx0 hy0 hy1 _ _ hx hy]
    rw [test_blinkerV_coords st.width st.height x0 y0 hx0 hy0 hy1 _ _ hx hy]

theorem computeNext_blinkerV (st : CAState) (W H x0 y0 : Nat)
    (hw : st.width = W) (hh : st.height = H) (hg : st.grid = blinkerV W H x0 y0)
    (hnext : st.nextGrid.data.length = W * H)
    (hx0 : x0 + 2 < W) (hy0 : 1 ≤ y0) (hy1 : y0 + 1 < H) :
    computeNext st = blinkerH W H x0 y0 := by
  subst hw hh
  have hW : 0 < st.width := by omega
  refine DynamicBitset.ext_test _ _ ?_ ?_
  · rw [computeNext_length, hnext]
    simp [blinkerH]
  · intro j hj
    rw [computeNext_length, hnext] at hj
    have hx : j % st.width < st.width := Nat.mod_lt _ hW
    have hy : j / st.width < st.height := Nat.div_lt_of_lt_mul hj
    have hmc : (j / st.width) * st.width = st.width * (j / st.width) := Nat.mul_comm _ _
    have hdm := Nat.div_add_mod j st.width
    have hdec : (j / st.width) * st.width + j % st.width = j := by omega
    rw [show (j : Int) = (((j / st.width) * st.width + j % st.width : Nat) : Int) by
      rw [hdec]]
    rw [computeNext_test st hnext _ _ hx hy]
    rw [nextCell_blinkerV st st.width st.height x0 y0 rfl rfl hg hx0 hy0 hy1 _ _ hx hy]
    rw [test_blinkerH_coords st.width st.height x0 y0 hx0 (by omega) _ _ hx hy]

theorem blinkerV_ne_blinkerH (W H x0 y0 : Nat) (hx0 : x0 + 2 < W) (hy0 : 1 ≤ y0)
    (hy1 : y0 + 1 < H) : blinkerV W H x0 y0 ≠ blinkerH W H x0 y0 := by
  intro heq
  have h1 := congrArg (fun b => DynamicBitset.test b ((y0 * W + x0 : Nat) : Int)) heq
  simp only at h1
  rw [test_blinkerV_coords W H x0 y0 hx0 hy0 hy1 x0 y0 (by omega) (by omega),
    test_blinkerH_coords W H x0 y0 hx0 (by omega) x0 y0 (by omega) (by omega)] at h1
  rw [decide_eq_decide] at h1
  omega

/-- C5.  On a grid holding exactly a horizontal three-cell blinker, placed so
that the three cells and their vertical neighbors are in bounds, and whose
previous generation is not already the vertical blinker: the first `update`
does not terminate and moves the grid to the vertical blinker, applying the
generation rule a second time restores the original horizontal blinker, and
the second `update` call detects the period-2 oscillation against `prevGrid`
and returns `false`. -/
theorem blinker_period_two (st : CAState) (W H x0 y0 : Nat)
    (hw : st.width = W) (hh : st.height = H)
    (hg : st.grid = blinkerH W H x0 y0)
    (hnext : st.nextGrid.data.length = W * H)
    (hprev : st.prevGrid ≠ blinkerV W H x0 y0)
    (hx0 : x0 + 2 < W) (hy0 : 1 ≤ y0) (hy1 : y0 + 1 < H) :
    (update st).1 = true ∧
    (update st).2.grid = blinkerV W H x0 y0 ∧
    computeNext (update st).2 = blinkerH W H x0 y0 ∧
    (update (update st).2).1 = false := by
  have h1 : computeNext st = blinkerV W H x0 y0 :=
    computeNext_blinkerH st W H x0 y0 hw hh hg hnext hx0 hy0 hy1
  have hVH : blinkerV W H x0 y0 ≠ blinkerH W H x0 y0 :=
    blinkerV_ne_blinkerH W H x0 y0 hx0 hy0 hy1
  have hcond : ¬(computeNext st = st.prevGrid ∨ computeNext st = st.grid) := by
    rw [h1, hg]
    rintro (h | h)
    · exact hprev h.symm
    · exact hVH h
  have hupd : update st =
      (true, { st with prevGrid := st.grid, grid := computeNext st, nextGrid := computeNext st }) := by
    unfold update
    rw [if_neg hcond]
  have h2 :
      computeNext { st with prevGrid := st.grid, grid := computeNext st, nextGrid := computeNext st } =
        blinkerH W H x0 y0 := by
    refine computeNext_blinkerV _ W H x0 y0 hw hh ?_ ?_ hx0 hy0 hy1
    · show computeNext st = blinkerV W H x0 y0
      exact h1
    · show (computeNext st).data.length = W * H
      rw [computeNext_length, hnext]
  have h3 :
      (update { st with prevGrid := st.grid, grid := computeNext st, nextGrid := computeNext st }).1 =
        false := by
    unfold update
    rw [if_pos (Or.inl (by rw [h2]; show blinkerH W H x0 y0 = st.grid; rw [hg]))]
  rw [hupd]
  exact ⟨rfl, h1, h2, h3⟩

/-- Witness for C5 on the 3x3 blinker state. -/
theorem blinker_period_two_witness :
    caBlinkH.grid = blinkerH 3 3 0 1 ∧
    caBlinkH.nextGrid.data.length = 3 * 3 ∧
    caBlinkH.prevGrid ≠ blinkerV 3 3 0 1 ∧
    ((update caBlinkH).1 = true ∧
     (update caBlinkH).2.grid = blinkerV 3 3 0 1 ∧
     computeNext (update caBlinkH).2 = blinkerH 3 3 0 1 ∧
     (update (update caBlinkH).2).1 = false) :=
  ⟨rfl, by decide, by decide,
    blinker_period_two caBlinkH 3 3 0 1 rfl rfl rfl (by decide) (by decide)
      (by decide) (by decide) (by decide)⟩


end GoL
